import Mathlib

/-
Verification of the `@mirawision/observer` package: a minimal typed
publish/subscribe primitive (`Observer<T>`, spec name `Notifier<T>`).
The repository ships the class in `src/index.ts`; here the class and its
four operations are embedded shallowly. Listener callbacks are compared
by identity, so they are modelled as opaque values of a type `L` with
decidable equality; the payload type is `T`. The JavaScript `Set` that
holds the listeners deduplicates by identity and iterates in insertion
order, so it is modelled as a duplicate-free list in insertion order.
-/

namespace MWObserver

/-- Modelled from the spec: the implementation file `src/index.ts` with the
`Observer<T>` class is missing from the sources (only its tests, README and
jest config survive). Per §3 of the design, the class owns one attribute,
`listeners`: a `Set` of callbacks of type `(T) -> void`, deduplicated by
callback identity, iterated in insertion order. Callbacks are opaque
identities of type `L`; the set is a list in insertion order. -/
structure Observer (L : Type) where
  listeners : List L
deriving DecidableEq, Repr

/-- Modelled from the spec: `new Observer<T>()` — the Notifier is created
empty by the consumer (§3 Lifecycle). -/
def Observer.new (L : Type) : Observer L := ⟨[]⟩

/-- Modelled from the spec: `subscribe(listener)` adds the callback to the
listener set if not already present by identity (§4.1); a JavaScript
`Set.add` on a fresh element appends it at the end of iteration order. -/
def Observer.subscribe {L : Type} [DecidableEq L] (o : Observer L) (l : L) :
    Observer L :=
  if l ∈ o.listeners then o else ⟨o.listeners ++ [l]⟩

/-- Modelled from the spec: `unsubscribe(listener)` removes the callback from
the listener set if present; if absent the call is a silent no-op (§4.1, §7).
`Set.delete` on a deduplicated collection removes the unique occurrence. -/
def Observer.unsubscribe {L : Type} [DecidableEq L] (o : Observer L) (l : L) :
    Observer L :=
  ⟨o.listeners.erase l⟩

/-- Modelled from the spec: `unsubscribeAll()` empties the listener set
entirely, regardless of current size (§4.1). -/
def Observer.unsubscribeAll {L : Type} (o : Observer L) : Observer L := ⟨[]⟩

/-- Modelled from the spec: `notify(data)` synchronously invokes every
currently-registered listener, in turn, passing `data` as the sole argument
(§4.1). The call trace is the list of (listener, payload) invocations in
iteration order; in the healthy case every listener returns normally. -/
def Observer.notify {L T : Type} (o : Observer L) (x : T) : List (L × T) :=
  o.listeners.map (fun l => (l, x))

/-- The listener-set invariant of §3: a given callback identity appears at
most once in `listeners`. -/
def Observer.Wf {L : Type} (o : Observer L) : Prop := o.listeners.Nodup

instance {L : Type} [DecidableEq L] (o : Observer L) : Decidable o.Wf :=
  inferInstanceAs (Decidable (List.Nodup o.listeners))

/-- Subscribing a whole list of callbacks in order, left to right. -/
def Observer.subscribeSeq {L : Type} [DecidableEq L] (o : Observer L)
    (ls : List L) : Observer L :=
  ls.foldl Observer.subscribe o

/-- Modelled from the spec: delivery when listeners may fail (§4.1, §7).
`beh l x = some e` means listener `l` throws exception `e` when invoked with
payload `x`; `none` means it returns normally. `deliver` walks the listener
set in iteration order and returns the listeners actually invoked together
with the first exception raised, if any: the first failure aborts the
remaining delivery for that call and the error propagates to the caller of
`notify`. -/
def deliver {L T E : Type} (beh : L → T → Option E) :
    List L → T → List L × Option E
  | [], _ => ([], none)
  | l :: rest, x =>
    match beh l x with
    | some e => ([l], some e)
    | none =>
      let p := deliver beh rest x
      (l :: p.1, p.2)

/-- Modelled from the spec: the operations a consumer can call on a Notifier
(§4.1, §6): the three listener-management operations and `notify`. -/
inductive Op (L T : Type) where
  | subscribe (l : L)
  | unsubscribe (l : L)
  | unsubscribeAll
  | notify (x : T)
deriving DecidableEq, Repr

/-- Modelled from the spec: the effect of one operation on the Notifier
state. `notify` iterates the listener set and calls each listener; under the
proviso that no listener mutates the Notifier during delivery, it leaves the
listener set untouched (§4.1, §4 "No state machine"). -/
def Observer.applyOp {L T : Type} [DecidableEq L] (o : Observer L) :
    Op L T → Observer L
  | .subscribe l => o.subscribe l
  | .unsubscribe l => o.unsubscribe l
  | .unsubscribeAll => o.unsubscribeAll
  | .notify _ => o

/-- Running a sequence of consumer operations from a given state. -/
def Observer.run {L T : Type} [DecidableEq L] (o : Observer L) :
    List (Op L T) → Observer L
  | [] => o
  | op :: ops => (o.applyOp op).run ops

/-- Whether an operation is one of the three listener-management
operations, as opposed to `notify`. -/
def Op.isMgmt {L T : Type} : Op L T → Bool
  | .notify _ => false
  | _ => true

section Lemmas

variable {L T E : Type} [DecidableEq L]

theorem subscribe_listeners_of_mem {o : Observer L} {f : L}
    (h : f ∈ o.listeners) : (o.subscribe f).listeners = o.listeners := by
  simp [Observer.subscribe, h]

theorem subscribe_listeners_of_not_mem {o : Observer L} {f : L}
    (h : f ∉ o.listeners) :
    (o.subscribe f).listeners = o.listeners ++ [f] := by
  simp [Observer.subscribe, h]

theorem mem_subscribe_self (o : Observer L) (f : L) :
    f ∈ (o.subscribe f).listeners := by
  by_cases h : f ∈ o.listeners
  · rw [subscribe_listeners_of_mem h]; exact h
  · rw [subscribe_listeners_of_not_mem h]; simp

theorem subscribe_wf {o : Observer L} (f : L) (h : o.Wf) :
    (o.subscribe f).Wf := by
  by_cases hm : f ∈ o.listeners
  · unfold Observer.Wf
    rw [subscribe_listeners_of_mem hm]
    exact h
  · have h2 : o.listeners.Nodup := h
    unfold Observer.Wf
    rw [subscribe_listeners_of_not_mem hm]
    simp [List.nodup_append, h2, hm]

theorem unsubscribe_wf {o : Observer L} (f : L) (h : o.Wf) :
    (o.unsubscribe f).Wf :=
  List.Nodup.erase f h

theorem count_notify [DecidableEq T] (o : Observer L) (x : T) (l : L) :
    (o.notify x).count (l, x) = o.listeners.count l := by
  unfold Observer.notify
  induction o.listeners with
  | nil => rfl
  | cons a rest ih =>
    rw [List.map_cons]
    by_cases hal : a = l
    · subst hal
      rw [List.count_cons_self, List.count_cons_self, ih]
    · have h1 : (l, x) ≠ (a, x) := by simp [Ne.symm hal]
      rw [List.count_cons_of_ne h1, List.count_cons_of_ne (Ne.symm hal), ih]

theorem subscribeSeq_listeners (o : Observer L) (ls : List L)
    (hn : ls.Nodup) (hd : ∀ l ∈ ls, l ∉ o.listeners) :
    (o.subscribeSeq ls).listeners = o.listeners ++ ls := by
  induction ls generalizing o with
  | nil => simp [Observer.subscribeSeq]
  | cons a rest ih =>
    have ha : a ∉ o.listeners := hd a (by simp)
    have step : (o.subscribe a).listeners = o.listeners ++ [a] :=
      subscribe_listeners_of_not_mem ha
    have hrest : ∀ l ∈ rest, l ∉ (o.subscribe a).listeners := by
      intro l hl
      rw [step]
      simp only [List.mem_append, List.mem_singleton]
      rintro (hlo | rfl)
      · exact hd l (by simp [hl]) hlo
      · exact (List.nodup_cons.mp hn).1 hl
    have : (Observer.subscribeSeq (o.subscribe a) rest).listeners
        = (o.subscribe a).listeners ++ rest :=
      ih (o.subscribe a) (List.nodup_cons.mp hn).2 hrest
    simp only [Observer.subscribeSeq, List.foldl_cons] at *
    rw [this, step, List.append_assoc]
    rfl

theorem run_filter_mgmt (ops : List (Op L T)) :
    ∀ o : Observer L, o.run ops = o.run (ops.filter Op.isMgmt) := by
  induction ops with
  | nil => intro o; rfl
  | cons op rest ih =>
    intro o
    cases op with
    | subscribe l =>
      show (o.subscribe l).run rest
          = (o.subscribe l).run (rest.filter Op.isMgmt)
      exact ih (o.subscribe l)
    | unsubscribe l =>
      show (o.unsubscribe l).run rest
          = (o.unsubscribe l).run (rest.filter Op.isMgmt)
      exact ih (o.unsubscribe l)
    | unsubscribeAll =>
      show (o.unsubscribeAll).run rest
          = (o.unsubscribeAll).run (rest.filter Op.isMgmt)
      exact ih o.unsubscribeAll
    | notify x =>
      show o.run rest = o.run (rest.filter Op.isMgmt)
      exact ih o

theorem deliver_all_ok (beh : L → T → Option E) (ls : List L) (x : T)
    (h : ∀ l ∈ ls, beh l x = none) : deliver beh ls x = (ls, none) := by
  induction ls with
  | nil => rfl
  | cons a rest ih =>
    have ha : beh a x = none := h a (by simp)
    have hrest : deliver beh rest x = (rest, none) :=
      ih (fun l hl => h l (by simp [hl]))
    simp [deliver, ha, hrest]

end Lemmas

section Claims

variable {L T E : Type} [DecidableEq L]

/-- C1: for every well-formed Notifier state and payload `x`, `notify(x)`
invokes every listener currently in the listener set exactly once, passing
`x` as the sole argument, and every invocation in the trace targets a
registered listener with payload `x`; in particular, for two distinct
callbacks `f` and `g` subscribed in that order onto a fresh Notifier,
`notify(x)` invokes both `f(x)` and `g(x)` exactly once each. -/
theorem notify_invokes_each_listener_once [DecidableEq T]
    (o : Observer L) (x : T) (f g : L) (h : o.Wf) (hfg : f ≠ g) :
    (∀ l ∈ o.listeners, (o.notify x).count (l, x) = 1) ∧
    (∀ p ∈ o.notify x, p.2 = x ∧ p.1 ∈ o.listeners) ∧
    ((((Observer.new L).subscribe f).subscribe g).notify x).count (f, x) = 1 ∧
    ((((Observer.new L).subscribe f).subscribe g).notify x).count (g, x) = 1 := by
  have hnf : f ∉ (Observer.new L).listeners := List.not_mem_nil f
  have hLf : ((Observer.new L).subscribe f).listeners = [f] := by
    rw [subscribe_listeners_of_not_mem hnf]
    rfl
  have hg : g ∉ ((Observer.new L).subscribe f).listeners := by
    rw [hLf]
    simpa using hfg.symm
  have hLg : (((Observer.new L).subscribe f).subscribe g).listeners = [f, g] := by
    rw [subscribe_listeners_of_not_mem hg, hLf]
    rfl
  refine ⟨?_, ?_, ?_, ?_⟩
  · intro l hl
    rw [count_notify]
    exact List.count_eq_one_of_mem h hl
  · intro p hp
    unfold Observer.notify at hp
    rcases List.mem_map.mp hp with ⟨l, hl, rfl⟩
    exact ⟨rfl, hl⟩
  · rw [count_notify, hLg]
    simp [hfg, hfg.symm]
  · rw [count_notify, hLg]
    simp [hfg, hfg.symm]

/-- C1 witness: the theorem applied at the concrete state with listeners
`[0, 1]`, payload `5`, and distinct callbacks `0` and `1`. -/
theorem notify_invokes_each_listener_once_witness :
    (Observer.mk [0, 1] : Observer Nat).Wf ∧ (0 : Nat) ≠ 1 ∧
    ((∀ l ∈ (Observer.mk [0, 1] : Observer Nat).listeners,
        ((Observer.mk [0, 1] : Observer Nat).notify (5 : Nat)).count (l, 5) = 1) ∧
     (∀ p ∈ (Observer.mk [0, 1] : Observer Nat).notify (5 : Nat),
        p.2 = 5 ∧ p.1 ∈ (Observer.mk [0, 1] : Observer Nat).listeners) ∧
     ((((Observer.new Nat).subscribe 0).subscribe 1).notify (5 : Nat)).count (0, 5) = 1 ∧
     ((((Observer.new Nat).subscribe 0).subscribe 1).notify (5 : Nat)).count (1, 5) = 1) :=
  ⟨by decide, by decide,
    notify_invokes_each_listener_once (Observer.mk [0, 1]) 5 0 1
      (by decide) (by decide)⟩

/-- C2: on every well-formed state, the at-most-once invariant is preserved
by `subscribe`, `unsubscribe` and `unsubscribeAll`; after `subscribe(f)` the
listener set contains `f` exactly once, re-subscribing is idempotent (it
results in exactly one registration), and a subsequent `notify(x)` invokes
`f` exactly once. -/
theorem subscribe_idempotent_at_most_once [DecidableEq T]
    (o : Observer L) (f : L) (x : T) (h : o.Wf) :
    (o.subscribe f).Wf ∧ (o.unsubscribe f).Wf ∧ (o.unsubscribeAll).Wf ∧
    (o.subscribe f).listeners.count f = 1 ∧
    (o.subscribe f).subscribe f = o.subscribe f ∧
    ((o.subscribe f).notify x).count (f, x) = 1 := by
  have hwf : (o.subscribe f).Wf := subscribe_wf f h
  have hmem : f ∈ (o.subscribe f).listeners := mem_subscribe_self o f
  have hcount : (o.subscribe f).listeners.count f = 1 :=
    List.count_eq_one_of_mem hwf hmem
  refine ⟨hwf, unsubscribe_wf f h, List.nodup_nil, hcount, ?_, ?_⟩
  · show (if f ∈ (o.subscribe f).listeners then o.subscribe f
        else ⟨(o.subscribe f).listeners ++ [f]⟩) = o.subscribe f
    rw [if_pos hmem]
  · rw [count_notify]
    exact hcount

/-- C2 witness: the theorem applied at the state with listeners `[2]`,
subscribing callback `7` and notifying with payload `3`. -/
theorem subscribe_idempotent_at_most_once_witness :
    (Observer.mk [2] : Observer Nat).Wf ∧
    (((Observer.mk [2] : Observer Nat).subscribe 7).Wf ∧
     ((Observer.mk [2] : Observer Nat).unsubscribe 7).Wf ∧
     ((Observer.mk [2] : Observer Nat).unsubscribeAll).Wf ∧
     ((Observer.mk [2] : Observer Nat).subscribe 7).listeners.count 7 = 1 ∧
     ((Observer.mk [2] : Observer Nat).subscribe 7).subscribe 7
        = (Observer.mk [2] : Observer Nat).subscribe 7 ∧
     (((Observer.mk [2] : Observer Nat).subscribe 7).notify (3 : Nat)).count (7, 3) = 1) :=
  ⟨by decide, subscribe_idempotent_at_most_once (Observer.mk [2]) 7 3 (by decide)⟩

/-- C3: on every well-formed state where `f` is subscribed, `unsubscribe(f)`
removes `f` from the listener set, a subsequent `notify(x)` does not invoke
`f`, and every other still-subscribed listener is still invoked with `x`. -/
theorem unsubscribe_removes_only_target
    (o : Observer L) (f : L) (x : T) (h : o.Wf) (hf : f ∈ o.listeners) :
    f ∉ (o.unsubscribe f).listeners ∧
    (f, x) ∉ (o.unsubscribe f).notify x ∧
    ∀ g ∈ o.listeners, g ≠ f → (g, x) ∈ (o.unsubscribe f).notify x := by
  have hnot : f ∉ (o.unsubscribe f).listeners := List.Nodup.not_mem_erase h
  refine ⟨hnot, ?_, ?_⟩
  · intro hmem
    unfold Observer.notify at hmem
    rcases List.mem_map.mp hmem with ⟨l, hl, hlx⟩
    have : l = f := congrArg Prod.fst hlx
    exact hnot (this ▸ hl)
  · intro g hg hgf
    unfold Observer.notify
    refine List.mem_map.mpr ⟨g, ?_, rfl⟩
    exact (List.mem_erase_of_ne hgf).mpr hg

/-- C3 witness: the theorem applied at the state with listeners `[4, 9]`,
removing `4` and notifying with payload `1`; `9` is still invoked. -/
theorem unsubscribe_removes_only_target_witness :
    (Observer.mk [4, 9] : Observer Nat).Wf ∧ (4 : Nat) ∈ [4, 9] ∧
    ((4 : Nat) ∉ ((Observer.mk [4, 9] : Observer Nat).unsubscribe 4).listeners ∧
     ((4 : Nat), (1 : Nat)) ∉ ((Observer.mk [4, 9] : Observer Nat).unsubscribe 4).notify 1 ∧
     ∀ g ∈ (Observer.mk [4, 9] : Observer Nat).listeners, g ≠ 4 →
       (g, (1 : Nat)) ∈ ((Observer.mk [4, 9] : Observer Nat).unsubscribe 4).notify 1) :=
  ⟨by decide, by decide,
    unsubscribe_removes_only_target (Observer.mk [4, 9]) 4 1 (by decide) (by decide)⟩

/-- C4: for every Notifier state of any size, including the empty state,
`unsubscribeAll()` empties the listener set entirely, and a subsequent
`notify(x)` invokes no listeners. -/
theorem unsubscribeAll_empties (o : Observer L) (x : T) :
    (o.unsubscribeAll).listeners = [] ∧ (o.unsubscribeAll).notify x = [] :=
  ⟨rfl, rfl⟩

/-- C5: for every state and every callback `f` not currently in the listener
set, `unsubscribe(f)` is a silent no-op: the whole state, and hence every
other registered listener, is left unchanged. -/
theorem unsubscribe_absent_noop (o : Observer L) (f : L)
    (h : f ∉ o.listeners) : o.unsubscribe f = o := by
  unfold Observer.unsubscribe
  cases o with
  | mk ls =>
    simp only
    rw [List.erase_of_not_mem h]

/-- C5 witness: the theorem applied at the state with listeners `[1, 2]` and
the never-subscribed callback `0`. -/
theorem unsubscribe_absent_noop_witness :
    (0 : Nat) ∉ (Observer.mk [1, 2] : Observer Nat).listeners ∧
    (Observer.mk [1, 2] : Observer Nat).unsubscribe 0 = Observer.mk [1, 2] :=
  ⟨by decide, unsubscribe_absent_noop (Observer.mk [1, 2]) 0 (by decide)⟩

/-- C6: for every payload `x`, `notify(x)` on a Notifier whose listener set
is empty performs no invocation at all: it is a no-op that completes without
error. -/
theorem notify_empty_noop (o : Observer L) (x : T)
    (h : o.listeners = []) : o.notify x = [] := by
  unfold Observer.notify
  rw [h]
  rfl

/-- C6 witness: the theorem applied at the freshly constructed (empty)
Notifier with payload `0`. -/
theorem notify_empty_noop_witness :
    (Observer.new Nat).listeners = [] ∧
    (Observer.new Nat).notify (0 : Nat) = [] :=
  ⟨by decide, notify_empty_noop (Observer.new Nat) 0 (by decide)⟩

/-- C7: when the listener set is `pre ++ f :: post`, every listener in `pre`
returns normally and `f` throws exception `e`, delivery invokes exactly the
listeners `pre ++ [f]` in order — the listeners in `post`, after the failing
one in iteration order, are not invoked — and the exception `e` propagates
unmodified to the caller of `notify`. -/
theorem notify_first_failure_aborts (beh : L → T → Option E)
    (o : Observer L) (pre post : List L) (f : L) (x : T) (e : E)
    (hls : o.listeners = pre ++ f :: post)
    (hpre : ∀ l ∈ pre, beh l x = none) (hf : beh f x = some e) :
    deliver beh o.listeners x = (pre ++ [f], some e) := by
  rw [hls]
  clear hls
  induction pre with
  | nil => simp [deliver, hf]
  | cons a rest ih =>
    have ha : beh a x = none := hpre a (by simp)
    have hrest : deliver beh (rest ++ f :: post) x = (rest ++ [f], some e) :=
      ih (fun l hl => hpre l (by simp [hl]))
    simp [deliver, ha, hrest]

/-- C7 witness: the theorem applied with listeners `[0, 1, 2]`, where
listener `1` throws exception `7` on payload `3`: listeners `[0, 1]` run,
listener `2` does not, and `7` propagates. -/
theorem notify_first_failure_aborts_witness :
    (Observer.mk [0, 1, 2] : Observer Nat).listeners = [0] ++ 1 :: [2] ∧
    (∀ l ∈ [(0 : Nat)],
      (fun (l : Nat) (_ : Nat) => if l = 1 then some 7 else none) l 3 = none) ∧
    (fun (l : Nat) (_ : Nat) => if l = 1 then some 7 else none) 1 3 = some 7 ∧
    deliver (fun (l : Nat) (_ : Nat) => if l = 1 then some 7 else none)
      (Observer.mk [0, 1, 2] : Observer Nat).listeners 3 = ([0, 1], some 7) :=
  ⟨by decide, by decide, by decide,
    notify_first_failure_aborts
      (fun (l : Nat) (_ : Nat) => if l = 1 then some 7 else none)
      (Observer.mk [0, 1, 2]) [0] [2] 1 3 7 (by decide) (by decide) (by decide)⟩

/-- C8: `notify(x)` invokes listeners in registration order: subscribing a
duplicate-free list of fresh callbacks in order appends them to the listener
set in exactly that order, and the notification trace is the listener set in
iteration order paired with `x`, so the listeners subscribed earlier are
invoked before those subscribed later, with no reordering. -/
theorem notify_in_registration_order (o : Observer L) (ls : List L) (x : T)
    (hn : ls.Nodup) (hd : ∀ l ∈ ls, l ∉ o.listeners) :
    (o.subscribeSeq ls).listeners = o.listeners ++ ls ∧
    (o.subscribeSeq ls).notify x = o.notify x ++ ls.map (fun l => (l, x)) := by
  have hl : (o.subscribeSeq ls).listeners = o.listeners ++ ls :=
    subscribeSeq_listeners o ls hn hd
  refine ⟨hl, ?_⟩
  unfold Observer.notify
  rw [hl, List.map_append]

/-- C8 witness: subscribing the fresh callbacks `[3, 1, 2]` in order onto
the state with listeners `[9]` registers them after `9` in that order, and
the trace of `notify 0` lists the invocations in registration order. -/
theorem notify_in_registration_order_witness :
    ([3, 1, 2] : List Nat).Nodup ∧
    (∀ l ∈ ([3, 1, 2] : List Nat),
        l ∉ (Observer.mk [9] : Observer Nat).listeners) ∧
    (((Observer.mk [9] : Observer Nat).subscribeSeq [3, 1, 2]).listeners
        = [9] ++ [3, 1, 2] ∧
     ((Observer.mk [9] : Observer Nat).subscribeSeq [3, 1, 2]).notify (0 : Nat)
        = (Observer.mk [9] : Observer Nat).notify 0
          ++ [3, 1, 2].map (fun l => (l, 0))) :=
  ⟨by decide, by decide,
    notify_in_registration_order (Observer.mk [9]) [3, 1, 2] 0
      (by decide) (by decide)⟩

/-- C9: a newly constructed Notifier has an empty listener set, and the
listener set is mutated only by the three listener-management operations:
under the proviso that no listener mutates the Notifier during delivery,
deleting every `notify` from a run of consumer operations leaves the final
state unchanged, and a single `notify` operation leaves any state exactly as
it was. -/
theorem notify_preserves_listener_set (o : Observer L) (ops : List (Op L T))
    (x : T) :
    (Observer.new L).listeners = [] ∧
    o.run ops = o.run (ops.filter Op.isMgmt) ∧
    o.applyOp (Op.notify x) = o :=
  ⟨rfl, run_filter_mgmt ops o, rfl⟩

/-- C10: for every state and every callback `f` not currently in the
listener set, `subscribe(f)` immediately followed by `unsubscribe(f)`
restores the state exactly: the round trip is the identity. -/
theorem subscribe_unsubscribe_roundtrip (o : Observer L) (f : L)
    (h : f ∉ o.listeners) : (o.subscribe f).unsubscribe f = o := by
  have hs : (o.subscribe f).listeners = o.listeners ++ [f] :=
    subscribe_listeners_of_not_mem h
  unfold Observer.unsubscribe
  rw [hs]
  cases o with
  | mk ls =>
    simp only at h ⊢
    rw [List.erase_append_right [f] h]
    simp

/-- C10 witness: the theorem applied at the state with listeners `[5, 6]`
and the fresh callback `8`. -/
theorem subscribe_unsubscribe_roundtrip_witness :
    (8 : Nat) ∉ (Observer.mk [5, 6] : Observer Nat).listeners ∧
    ((Observer.mk [5, 6] : Observer Nat).subscribe 8).unsubscribe 8
      = Observer.mk [5, 6] :=
  ⟨by decide, subscribe_unsubscribe_roundtrip (Observer.mk [5, 6]) 8 (by decide)⟩

end Claims

end MWObserver
